import Mathlib

/- Shallow embedding of the scoring engine of `ai-microservice/app.py`
   (Job_Site repository).

   Modelling choices:
   * Python floats are idealised as rationals (ℚ); `round(x, n)` becomes
     `pyRound n x` (round half to even, as Python's `round`).
   * The MongoDB collections become explicit lists inside a `DB` record;
     `find({"status": "active"})` preserves natural datastore order, so it
     is `List.filter` on the jobs list, and `find_one({"_id": id})` is
     `List.find?`.
   * A Python set built as `set(s.lower() for s in l)` is represented by the
     duplicate-free list `lowerSet l = (l.map strLower).dedup`; set
     cardinality is then list length, membership is list membership, and
     `a.intersection(b)` is `inter a b = a.filter (· ∈ b)`.  Python's set
     iteration order (used only when joining matched skills into a reason
     string) is unspecified; the embedding fixes the deterministic
     `dedup` order.
   * `str.lower` / substring `in` are re-implemented over `List Char` so
     that the kernel can evaluate them (`strLower`, `substr`).
   * Each Flask route becomes a total function from the request fields and
     the `DB` to a response value; a falsy required field gives the
     `badRequest` constructor (HTTP 400), an unresolvable job in screening
     gives `notFound` (HTTP 404). -/

/-- ASCII-wise lower-casing of a string, matching Python `str.lower` on the
ASCII data appearing in this service. -/
def strLower (s : String) : String := ⟨s.data.map Char.toLower⟩

/-- Bool test: does `needle` occur at the start of `hay`? -/
def charsStartWith : List Char → List Char → Bool
  | [], _ => true
  | _ :: _, [] => false
  | a :: as, b :: bs => a == b && charsStartWith as bs

/-- Bool test: does `needle` occur contiguously anywhere in `hay`? -/
def charsContain (needle : List Char) : List Char → Bool
  | [] => charsStartWith needle []
  | b :: bs => charsStartWith needle (b :: bs) || charsContain needle bs

/-- Python's `needle in hay` on strings. -/
def substr (needle hay : String) : Bool := charsContain needle.data hay.data

/-- Floor of a rational, computably (`q.den` is positive, so Euclidean
division of the numerator by the denominator is the floor). -/
def ratFloor (q : ℚ) : ℤ := q.num / q.den

/-- Round a rational to the nearest integer, half to even (the rounding of
Python's `round`). -/
def roundHalfEven (y : ℚ) : ℤ :=
  let f : ℤ := ratFloor y
  let r := y - (f : ℚ)
  if r < 1/2 then f else if 1/2 < r then f + 1 else if f % 2 = 0 then f else f + 1

/-- Python's `round(q, n)`: round `q` to `n` decimal digits, half to even. -/
def pyRound (n : ℕ) (q : ℚ) : ℚ := (roundHalfEven (q * 10 ^ n) : ℚ) / 10 ^ n

/-- `set(s.lower() for s in l)`, represented as a duplicate-free list. -/
def lowerSet (l : List String) : List String := (l.map strLower).dedup

/-- `a.intersection(b)` on set-representing lists (elements of `a` that are
also in `b`). -/
def inter (a b : List String) : List String := a.filter (fun x => decide (x ∈ b))

/-- One entry of a user's `experience` array (only the fields the scorers
read). -/
structure ExperienceEntry where
  title : String
  description : String
deriving DecidableEq

/-- One entry of a user's `projects` array. -/
structure ProjectEntry where
  description : String
deriving DecidableEq

/-- The `jobPreferences` sub-document; a missing key and an empty list are
both falsy in the Python code, so both are modelled by `[]`. -/
structure JobPrefs where
  locations : List String
  jobTypes : List String
  seniorityLevelPreference : List String
  industries : List String
deriving DecidableEq

/-- A resolved user profile, as returned by `get_user_profile_from_db`. -/
structure UserProfile where
  userId : String
  skills : List String
  experience : List ExperienceEntry
  projects : List ProjectEntry
  jobPreferences : JobPrefs
deriving DecidableEq

/-- A job document / the record returned by `get_job_details_from_db`
(with the company name already resolved). -/
structure Job where
  jobId : String
  title : String
  description : String
  location : String
  jobType : String
  seniorityLevel : String
  industry : String
  requiredSkills : List String
  preferredSkills : List String
  status : String
  companyName : String
  createdAt : Option String
deriving DecidableEq

/-- The datastore: the `users` and `jobs` collections in natural order. -/
structure DB where
  users : List UserProfile
  jobs : List Job
deriving DecidableEq

/-- `get_user_profile_from_db`: resolve a user id (an invalid or unknown id
is `none`). -/
def getUserProfile (db : DB) (uid : String) : Option UserProfile :=
  db.users.find? (fun u => u.userId == uid)

/-- `get_job_details_from_db`: resolve a job id. -/
def getJobDetails (db : DB) (jid : String) : Option Job :=
  db.jobs.find? (fun j => j.jobId == jid)

/-- `jobs_collection.find({"status": "active"})` in natural datastore
order. -/
def activeJobs (db : DB) : List Job := db.jobs.filter (fun j => j.status == "active")

/-- One job card of the `/recommend-jobs` response.  The fallback branch
emits no `reasons` key, hence `Option`. -/
structure JobCard where
  jobId : String
  score : ℚ
  reasons : Option (List String)
  title : String
  companyName : String
  location : String
  jobType : String
  description : String
  createdAt : Option String
deriving DecidableEq

/-- Build the response card for a job (shared by the fallback and the
personalized branch, which construct the same shape). -/
def mkJobCard (jid : String) (score : ℚ) (reasons : Option (List String)) (d : Job) : JobCard :=
  ⟨jid, score, reasons, d.title, d.companyName, d.location, d.jobType, d.description, d.createdAt⟩

/-- The fallback list: up to 5 active jobs in natural datastore order, each
with the fixed score 0.5 and no reasons; a job whose detail lookup fails is
skipped. -/
def generalJobs (db : DB) : List JobCard :=
  ((activeJobs db).take 5).filterMap (fun job =>
    match getJobDetails db job.jobId with
    | some d => some (mkJobCard job.jobId (1/2) none d)
    | none => none)

/-- `set(s.lower() for s in user_profile.get('skills', []))`. -/
def userSkillsLower (u : UserProfile) : List String := lowerSet u.skills

/-- `common_skills`: the user's lowered skill set intersected with the
job's combined (required + preferred) lowered skill set. -/
def commonSkills (u : UserProfile) (job : Job) : List String :=
  inter (userSkillsLower u) (lowerSet (job.requiredSkills ++ job.preferredSkills))

/-- Location preference test: `user_prefs.get('locations')` is truthy and
the lowered job location is among the lowered preferred locations. -/
def prefLocMatch (u : UserProfile) (job : Job) : Bool :=
  !u.jobPreferences.locations.isEmpty
    && (u.jobPreferences.locations.map strLower).contains (strLower job.location)

/-- Job-type preference test. -/
def prefTypeMatch (u : UserProfile) (job : Job) : Bool :=
  !u.jobPreferences.jobTypes.isEmpty
    && (u.jobPreferences.jobTypes.map strLower).contains (strLower job.jobType)

/-- Seniority preference test. -/
def prefSenMatch (u : UserProfile) (job : Job) : Bool :=
  !u.jobPreferences.seniorityLevelPreference.isEmpty
    && (u.jobPreferences.seniorityLevelPreference.map strLower).contains (strLower job.seniorityLevel)

/-- Industry preference test. -/
def prefIndMatch (u : UserProfile) (job : Job) : Bool :=
  !u.jobPreferences.industries.isEmpty
    && (u.jobPreferences.industries.map strLower).contains (strLower job.industry)

/-- The per-job body of the personalized loop in `/recommend-jobs`
(lines 197-240): returns the clamped score and the reasons list.
Only the location bonus appends a reason; the job-type, seniority and
industry bonuses change the score silently. -/
def scoreJob (u : UserProfile) (job : Job) : ℚ × List String :=
  let common_skills := commonSkills u job
  let skillPart : ℚ × List String :=
    if common_skills.isEmpty then (0, [])
    else
      let required_matched_count := (inter (userSkillsLower u) (lowerSet job.requiredSkills)).length
      let preferred_matched_count := (inter (userSkillsLower u) (lowerSet job.preferredSkills)).length
      let total_job_required_skills := job.requiredSkills.length
      let total_job_preferred_skills := job.preferredSkills.length
      let s0 : ℚ :=
        (if 0 < total_job_required_skills then
          (required_matched_count : ℚ) / (total_job_required_skills : ℚ) * (7/10) else 0)
        + (if 0 < total_job_preferred_skills then
          (preferred_matched_count : ℚ) / (total_job_preferred_skills : ℚ) * (3/10) else 0)
      (min (max 0 s0) 1, ["Matched skills: " ++ ", ".intercalate common_skills])
  let score := skillPart.1
    + (if prefLocMatch u job then 1/10 else 0)
    + (if prefTypeMatch u job then 1/20 else 0)
    + (if prefSenMatch u job then 1/10 else 0)
    + (if prefIndMatch u job then 1/10 else 0)
  let score := min (max 0 score) 1
  (score, skillPart.2 ++ (if prefLocMatch u job then ["Location preference matched."] else []))

/-- The personalized recommendation list before sorting: every active job
with positive score whose detail lookup succeeds, in datastore order. -/
def personalizedRecs (db : DB) (u : UserProfile) : List JobCard :=
  (activeJobs db).filterMap (fun job =>
    let sr := scoreJob u job
    if 0 < sr.1 then
      match getJobDetails db job.jobId with
      | some d => some (mkJobCard job.jobId (pyRound 4 sr.1) (some sr.2) d)
      | none => none
    else none)

/-- Stable insertion of a card into a list sorted descending by score
(ties keep encounter order, as with Python's stable `sort`). -/
def insertByScore (a : JobCard) : List JobCard → List JobCard
  | [] => [a]
  | x :: xs => if x.score ≤ a.score then a :: x :: xs else x :: insertByScore a xs

/-- `personalized_recommendations.sort(key=score, reverse=True)`: stable
descending sort by score. -/
def sortByScoreDesc (l : List JobCard) : List JobCard := l.foldr insertByScore []

/-- Response of `/recommend-jobs`: 400 when `userId` is falsy, otherwise a
list of job cards. -/
inductive RecResponse where
  | badRequest : RecResponse
  | ok : List JobCard → RecResponse
deriving DecidableEq

/-- The `/recommend-jobs` route (lines 147-287). -/
def recommendJobs (db : DB) (userId : String) : RecResponse :=
  if userId = "" then RecResponse.badRequest
  else
    match getUserProfile db userId with
    | none => RecResponse.ok (generalJobs db)
    | some u =>
      if (userSkillsLower u).isEmpty then RecResponse.ok (generalJobs db)
      else
        let recs := sortByScoreDesc (personalizedRecs db u)
        if recs.isEmpty then RecResponse.ok (generalJobs db) else RecResponse.ok recs

/-- The fixed scam keyword table, verbatim from the source, including the
upper-case entry "MLM". -/
def scamKeywords : List String :=
  ["upfront fee", "telegram only", "investment opportunity", "crypto payment",
   "send money", "work-from-home kit", "high commission", "get rich quick",
   "no experience required", "easy money", "passive income", "recruitment fee",
   "pyramid scheme", "multi-level marketing", "MLM", "fast cash", "instant profit",
   "secret method", "guaranteed income"]

/-- High-salary tokens of scam heuristic 1. -/
def highSalaryTokens : List String := ["100k", "150k", "200k", "high salary", "six figure"]

/-- Vague company names of scam heuristic 3. -/
def vagueCompanyNames : List String := ["confidential", "anonymous", "private employer"]

/-- Scam heuristic 1 (+0.20), on the already lowered title/description. -/
def scamH1 (title description : String) : Bool :=
  (substr "no experience" description || substr "entry level" title)
    && highSalaryTokens.any (fun s => substr s description)

/-- Scam heuristic 2 (+0.10): urgent hiring and immediate start appear but
the description mentions none of experience/qualifications/skills
(`re.search(r'experience|qualifications|skills', description)`). -/
def scamH2 (combined description : String) : Bool :=
  substr "urgent hiring" combined && substr "immediate start" combined
    && !(substr "experience" description || substr "qualifications" description
         || substr "skills" description)

/-- Scam heuristic 3 (+0.05): non-empty lowered company name equal to one
of the vague names. -/
def scamH3 (company : String) : Bool :=
  !(company == "") && vagueCompanyNames.contains company

/-- Payload of a `/detect-scam` success response. -/
structure ScamResult where
  isSuspicious : Bool
  score : ℚ
  flags : List String
deriving DecidableEq

/-- Response of `/detect-scam`: 400 when title and description are both
falsy. -/
inductive DetectResponse where
  | badRequest : DetectResponse
  | ok : ScamResult → DetectResponse
deriving DecidableEq

/-- The `/detect-scam` route (lines 290-352).  The keyword for-loop is
rendered by `filter`/`length` over the keyword table (same accumulated
flags, score and suspicion). -/
def detectScam (jobTitle jobDescription companyName : String) : DetectResponse :=
  let title := strLower jobTitle
  let description := strLower jobDescription
  let company_name := strLower companyName
  if title = "" ∧ description = "" then DetectResponse.badRequest
  else
    let combined_text := title ++ " " ++ description
    let kwFired := scamKeywords.filter (fun kw => substr kw combined_text)
    let h1 := scamH1 title description
    let h2 := scamH2 combined_text description
    let h3 := scamH3 company_name
    let score : ℚ := (kwFired.length : ℚ) * (1/10)
      + (if h1 then 1/5 else 0) + (if h2 then 1/10 else 0) + (if h3 then 1/20 else 0)
    let is_suspicious := !kwFired.isEmpty || h1 || h2 || h3
    let flags := kwFired.map (fun kw => "Contains suspicious keyword: \x27" ++ kw ++ "\x27")
      ++ (if h1 then ["Suspicious: High pay for little or no experience mentioned."] else [])
      ++ (if h2 then ["Suspicious: Urgent hiring without clear qualifications mentioned in description."] else [])
      ++ (if h3 then ["Vague company name: \x27" ++ company_name ++ "\x27."] else [])
    DetectResponse.ok ⟨is_suspicious, pyRound 2 (min score 1), flags⟩

/-- The 22 score increments of `/detect-scam` in evaluation order:
0.10 per keyword-table entry, then 0.20, 0.10, 0.05 for heuristics 1-3. -/
def scamIncrements : List ℚ := List.replicate scamKeywords.length (1/10) ++ [1/5, 1/10, 1/20]

/-- Which of the 22 checks fire on a given input, in evaluation order. -/
def scamFiredVec (jobTitle jobDescription companyName : String) : List Bool :=
  let title := strLower jobTitle
  let description := strLower jobDescription
  let combined_text := title ++ " " ++ description
  scamKeywords.map (fun kw => substr kw combined_text)
    ++ [scamH1 title description, scamH2 combined_text description, scamH3 (strLower companyName)]

/-- Sum of the increments at the fired positions. -/
def dotScore : List Bool → List ℚ → ℚ
  | b :: bs, i :: is => (if b then i else 0) + dotScore bs is
  | _, _ => 0

/-- One entry of the `/screen-candidates` result list. -/
structure ScreenEntry where
  applicantId : String
  score : ℚ
  reasons : List String
deriving DecidableEq

/-- Response of `/screen-candidates`: 400 when `jobId` or the applicant
list is falsy, 404 (with empty results) when the job does not resolve. -/
inductive ScreenResponse where
  | badRequest : ScreenResponse
  | notFound : ScreenResponse
  | ok : List ScreenEntry → ScreenResponse
deriving DecidableEq

/-- The per-applicant body of the `/screen-candidates` loop
(lines 380-434). -/
def screenOne (db : DB) (job : Job) (aid : String) : ScreenEntry :=
  match getUserProfile db aid with
  | none => ⟨aid, 0, ["Applicant profile not found in DB or invalid ID."]⟩
  | some p =>
    let required_skills_lower := lowerSet job.requiredSkills
    let preferred_skills_lower := lowerSet job.preferredSkills
    let applicant_skills_lower := lowerSet p.skills
    let matched_required_skills := inter required_skills_lower applicant_skills_lower
    let s1 : ℚ :=
      if required_skills_lower.isEmpty then 60
      else ((matched_required_skills.length : ℚ) / (required_skills_lower.length : ℚ)) * 60
    let r1 : List String :=
      if required_skills_lower.isEmpty then ["No specific required skills for this job."]
      else if matched_required_skills.length = required_skills_lower.length then
        ["All required skills matched."]
      else if !matched_required_skills.isEmpty then
        ["Matched required skills: " ++ ", ".intercalate matched_required_skills ++ "."]
      else ["No required skills matched."]
    let matched_preferred_skills := inter preferred_skills_lower applicant_skills_lower
    let s2 : ℚ :=
      if preferred_skills_lower.isEmpty then 0
      else ((matched_preferred_skills.length : ℚ) / (preferred_skills_lower.length : ℚ)) * 30
    let r2 : List String :=
      if !preferred_skills_lower.isEmpty && !matched_preferred_skills.isEmpty then
        ["Matched preferred skills: " ++ ", ".intercalate matched_preferred_skills ++ "."]
      else []
    let job_seniority := strLower job.seniorityLevel
    let applicant_experience_titles := p.experience.map (fun e => strLower e.title)
    let base := s1 + s2
    let senPart : ℚ × List String :=
      if substr "senior" job_seniority
          && !(applicant_experience_titles.any (fun t => substr "senior" t)) then
        (max 0 (base - 10),
         ["Job is \x27Senior\x27 level, but applicant lacks explicit senior experience."])
      else if substr "entry-level" job_seniority
          && applicant_experience_titles.any (fun t => substr "senior" t) then
        (max 0 (base - 5), ["Job is \x27Entry-level\x27, applicant appears overqualified."])
      else (base + 10, [])
    let score := min (max 0 senPart.1) 100
    let reasons := r1 ++ r2 ++ senPart.2
    ⟨p.userId, pyRound 2 score, if reasons.isEmpty then ["General fit."] else reasons⟩

/-- The `/screen-candidates` route (lines 355-437). -/
def screenCandidates (db : DB) (jobId : String) (applicantIds : List String) : ScreenResponse :=
  if jobId = "" ∨ applicantIds.isEmpty then ScreenResponse.badRequest
  else
    match getJobDetails db jobId with
    | none => ScreenResponse.notFound
    | some job => ScreenResponse.ok (applicantIds.map (screenOne db job))

/- ------------------------------------------------------------------ -/
/- Helper lemmas                                                       -/
/- ------------------------------------------------------------------ -/

theorem ratFloor_eq_floor (q : ℚ) : ratFloor q = ⌊q⌋ := by
  rw [Rat.floor_def]
  rfl

theorem roundHalfEven_eq (y : ℚ) : roundHalfEven y =
    if y - (ratFloor y : ℚ) < 1/2 then ratFloor y
    else if 1/2 < y - (ratFloor y : ℚ) then ratFloor y + 1
    else if ratFloor y % 2 = 0 then ratFloor y else ratFloor y + 1 := rfl

theorem roundHalfEven_intCast (z : ℤ) : roundHalfEven (z : ℚ) = z := by
  have hf : ratFloor (z : ℚ) = z := by rw [ratFloor_eq_floor, Int.floor_intCast]
  rw [roundHalfEven_eq, hf]
  norm_num

theorem roundHalfEven_nonneg {y : ℚ} (hy : 0 ≤ y) : 0 ≤ roundHalfEven y := by
  have hf : (0 : ℤ) ≤ ratFloor y := by
    rw [ratFloor_eq_floor]
    exact Int.floor_nonneg.2 hy
  rw [roundHalfEven_eq]
  split_ifs <;> omega

theorem roundHalfEven_le {y : ℚ} {m : ℤ} (hy : y ≤ (m : ℚ)) : roundHalfEven y ≤ m := by
  have hf : ratFloor y ≤ m := by
    rw [ratFloor_eq_floor]
    have h := Int.floor_le_floor hy
    rwa [Int.floor_intCast] at h
  have hlt : ¬ (y - (ratFloor y : ℚ) < 1/2) → ratFloor y < m := by
    intro h
    rcases lt_or_eq_of_le hf with h2 | h2
    · exact h2
    · exfalso
      push_neg at h
      rw [h2] at h
      linarith
  rw [roundHalfEven_eq]
  split_ifs with h1 h2 h3
  · exact hf
  · have := hlt h1
    omega
  · exact hf
  · have := hlt h1
    omega

theorem pyRound_nonneg (n : ℕ) (q : ℚ) (hq : 0 ≤ q) : 0 ≤ pyRound n q := by
  unfold pyRound
  have h1 : (0 : ℚ) ≤ q * 10 ^ n := by positivity
  have h2 := roundHalfEven_nonneg h1
  positivity

theorem pyRound_le_int (n : ℕ) (m : ℤ) (q : ℚ) (hq : q ≤ (m : ℚ)) : pyRound n q ≤ (m : ℚ) := by
  unfold pyRound
  have h1 : q * 10 ^ n ≤ ((m * 10 ^ n : ℤ) : ℚ) := by
    push_cast
    have h10 : (0 : ℚ) < 10 ^ n := by positivity
    nlinarith
  have h2 := roundHalfEven_le h1
  have h10 : (0 : ℚ) < 10 ^ n := by positivity
  rw [div_le_iff₀ h10]
  calc (roundHalfEven (q * 10 ^ n) : ℚ) ≤ ((m * 10 ^ n : ℤ) : ℚ) := by exact_mod_cast h2
  _ = (m : ℚ) * 10 ^ n := by push_cast; ring

theorem pyRound_eq_self (n : ℕ) (z : ℤ) : pyRound n ((z : ℚ) / 10 ^ n) = (z : ℚ) / 10 ^ n := by
  unfold pyRound
  have h10 : ((10 : ℚ) ^ n) ≠ 0 := by positivity
  rw [div_mul_cancel₀ _ h10, roundHalfEven_intCast]

theorem pyRound_intCast (n : ℕ) (z : ℤ) : pyRound n ((z : ℚ)) = (z : ℚ) := by
  have h10 : ((10 : ℚ) ^ n) ≠ 0 := by positivity
  have h : ((z : ℚ)) = ((z * 10 ^ n : ℤ) : ℚ) / 10 ^ n := by
    push_cast
    field_simp
  rw [h, pyRound_eq_self]

theorem clamp_mem (x c : ℚ) (hc : 0 ≤ c) : 0 ≤ min (max 0 x) c ∧ min (max 0 x) c ≤ c :=
  ⟨le_min (le_max_left 0 x) hc, min_le_right _ _⟩

theorem clamp_eq_self {x : ℚ} {c : ℚ} (h0 : 0 ≤ x) (hc : x ≤ c) : min (max 0 x) c = x := by
  rw [max_eq_right h0, min_eq_left hc]

theorem insertByScore_perm (a : JobCard) (l : List JobCard) :
    (insertByScore a l).Perm (a :: l) := by
  induction l with
  | nil => exact List.Perm.refl _
  | cons x xs ih =>
    by_cases h : x.score ≤ a.score
    · rw [insertByScore, if_pos h]
    · rw [insertByScore, if_neg h]
      exact (ih.cons x).trans (List.Perm.swap a x xs)

theorem sortByScoreDesc_perm (l : List JobCard) : (sortByScoreDesc l).Perm l := by
  induction l with
  | nil => exact List.Perm.refl _
  | cons x xs ih => exact (insertByScore_perm x (sortByScoreDesc xs)).trans (ih.cons x)

theorem mem_generalJobs {db : DB} {x : JobCard} (hx : x ∈ generalJobs db) :
    x.score = 1/2 ∧ x.reasons = none := by
  obtain ⟨j, hj, hxj⟩ := List.mem_filterMap.1 hx
  cases h : getJobDetails db j.jobId with
  | none => rw [h] at hxj; simp at hxj
  | some d =>
    rw [h] at hxj
    simp only [Option.some.injEq] at hxj
    rw [← hxj]
    exact ⟨rfl, rfl⟩

theorem length_generalJobs_le (db : DB) : (generalJobs db).length ≤ 5 := by
  calc (generalJobs db).length ≤ ((activeJobs db).take 5).length :=
        List.length_filterMap_le _ _
  _ ≤ 5 := List.length_take_le _ _

theorem mem_personalizedRecs {db : DB} {u : UserProfile} {x : JobCard}
    (hx : x ∈ personalizedRecs db u) :
    ∃ j, j ∈ activeJobs db ∧ 0 < (scoreJob u j).1 ∧ ∃ d, getJobDetails db j.jobId = some d ∧
      x = mkJobCard j.jobId (pyRound 4 (scoreJob u j).1) (some (scoreJob u j).2) d := by
  obtain ⟨j, hj, hxj⟩ := List.mem_filterMap.1 hx
  dsimp only at hxj
  by_cases hs : 0 < (scoreJob u j).1
  · rw [if_pos hs] at hxj
    cases h : getJobDetails db j.jobId with
    | none => rw [h] at hxj; simp at hxj
    | some d =>
      rw [h] at hxj
      simp only [Option.some.injEq] at hxj
      exact ⟨j, hj, hs, d, h, hxj.symm⟩
  · rw [if_neg hs] at hxj
    simp at hxj

theorem recommendJobs_ok {db : DB} {uid : String} {l : List JobCard}
    (h : recommendJobs db uid = RecResponse.ok l) :
    l = generalJobs db ∨
      ∃ u, getUserProfile db uid = some u ∧ l = sortByScoreDesc (personalizedRecs db u) := by
  unfold recommendJobs at h
  split at h
  · cases h
  · split at h
    next => left; cases h; rfl
    next u hu =>
      split at h
      · left; cases h; rfl
      · dsimp only at h
        split at h
        · left; cases h; rfl
        · right; exact ⟨u, hu, by cases h; rfl⟩

theorem screenCandidates_ok {db : DB} {jid : String} {ids : List String} {rs : List ScreenEntry}
    (h : screenCandidates db jid ids = ScreenResponse.ok rs) :
    ∃ job, getJobDetails db jid = some job ∧ rs = ids.map (screenOne db job) := by
  unfold screenCandidates at h
  split at h
  · cases h
  · split at h
    next => cases h
    next job hj => exact ⟨job, hj, by cases h; rfl⟩

theorem scoreJob_fst_shape (u : UserProfile) (job : Job) :
    ∃ x : ℚ, (scoreJob u job).1 = min (max 0 x) 1 := ⟨_, rfl⟩

theorem screenOne_score_shape (db : DB) (job : Job) (aid : String) :
    (screenOne db job aid).score = 0 ∨
      ∃ x : ℚ, (screenOne db job aid).score = pyRound 2 (min (max 0 x) 100) := by
  unfold screenOne
  cases getUserProfile db aid with
  | none => exact Or.inl rfl
  | some p => exact Or.inr ⟨_, rfl⟩

theorem mem_inter_iff (a b : List String) (x : String) :
    x ∈ inter a b ↔ x ∈ a ∧ x ∈ b := by
  unfold inter
  rw [List.mem_filter]
  simp

theorem mem_lowerSet_iff (l : List String) (x : String) :
    x ∈ lowerSet l ↔ x ∈ l.map strLower := by
  unfold lowerSet
  exact List.mem_dedup

theorem lowerSet_nodup (l : List String) : (lowerSet l).Nodup := List.nodup_dedup _

theorem inter_nodup {a : List String} (b : List String) (ha : a.Nodup) :
    (inter a b).Nodup := ha.filter _

theorem union_eq_right {l s : List String} (h : ∀ a ∈ l, a ∈ s) : l ∪ s = s := by
  induction l with
  | nil => rfl
  | cons a t ih =>
    have ht : ∀ x ∈ t, x ∈ s := fun x hx => h x (List.mem_cons_of_mem a hx)
    have ha : a ∈ t ∪ s := by
      rw [List.mem_union_iff]
      exact Or.inr (h a (List.mem_cons_self a t))
    calc (a :: t) ∪ s = List.insert a (t ∪ s) := rfl
    _ = t ∪ s := List.insert_of_mem ha
    _ = s := ih ht

theorem lowerSet_dup (r p : List String) : lowerSet ((r ++ r) ++ p) = lowerSet (r ++ p) := by
  unfold lowerSet
  simp only [List.map_append]
  rw [List.append_assoc, List.dedup_append, List.dedup_append]
  exact union_eq_right (fun a ha => by rw [List.mem_union_iff]; exact Or.inl ha)

theorem lowerSet_dup2 (r : List String) : lowerSet (r ++ r) = lowerSet r := by
  have h := lowerSet_dup r []
  rwa [List.append_nil, List.append_nil] at h

theorem lowerSet_length_le (l : List String) : (lowerSet l).length ≤ l.length := by
  calc (lowerSet l).length ≤ (l.map strLower).length :=
        (List.dedup_sublist _).length_le
  _ = l.length := List.length_map _ _

theorem inter_length_le_right {a : List String} (b : List String) (ha : a.Nodup) :
    (inter a b).length ≤ b.length := by
  have hnd : (inter a b).Nodup := inter_nodup b ha
  have h1 : (inter a b).toFinset.card = (inter a b).length := List.toFinset_card_of_nodup hnd
  have h2 : (inter a b).toFinset ⊆ b.toFinset := by
    intro x hx
    rw [List.mem_toFinset] at hx ⊢
    exact ((mem_inter_iff a b x).1 hx).2
  calc (inter a b).length = (inter a b).toFinset.card := h1.symm
  _ ≤ b.toFinset.card := Finset.card_le_card h2
  _ ≤ b.length := b.toFinset_card_le

theorem inter_lowerSet_length_le {a : List String} (ha : a.Nodup) (r : List String) :
    (inter a (lowerSet r)).length ≤ r.length :=
  (inter_length_le_right (lowerSet r) ha).trans (lowerSet_length_le r)

theorem dotScore_nil_left (incs : List ℚ) : dotScore [] incs = 0 := by
  cases incs <;> rfl

theorem dotScore_nil_right (bs : List Bool) : dotScore bs [] = 0 := by
  cases bs <;> rfl

theorem dotScore_nonneg : ∀ (bs : List Bool) (incs : List ℚ),
    (∀ i ∈ incs, (0:ℚ) ≤ i) → 0 ≤ dotScore bs incs := by
  intro bs
  induction bs with
  | nil => intro incs _; rw [dotScore_nil_left]
  | cons b t ih =>
    intro incs h
    cases incs with
    | nil => rw [dotScore_nil_right]
    | cons i it =>
      have h1 : (0:ℚ) ≤ i := h i (List.mem_cons_self i it)
      have h2 := ih it (fun x hx => h x (List.mem_cons_of_mem i hx))
      have h3 : (0:ℚ) ≤ if b then i else 0 := by
        split
        · exact h1
        · exact le_refl 0
      calc (0:ℚ) ≤ (if b then i else 0) + dotScore t it := by linarith
      _ = dotScore (b :: t) (i :: it) := rfl

theorem dotScore_append : ∀ (as : List Bool) (is : List ℚ) (bs : List Bool) (js : List ℚ),
    as.length = is.length →
    dotScore (as ++ bs) (is ++ js) = dotScore as is + dotScore bs js := by
  intro as
  induction as with
  | nil =>
    intro is bs js h
    cases is with
    | nil => rw [List.nil_append, List.nil_append, dotScore_nil_left, zero_add]
    | cons i it => simp at h
  | cons a t ih =>
    intro is bs js h
    cases is with
    | nil => simp at h
    | cons i it =>
      have h' : t.length = it.length := by simpa using h
      calc dotScore ((a :: t) ++ bs) ((i :: it) ++ js)
          = (if a then i else 0) + dotScore (t ++ bs) (it ++ js) := rfl
      _ = (if a then i else 0) + (dotScore t it + dotScore bs js) := by rw [ih it bs js h']
      _ = ((if a then i else 0) + dotScore t it) + dotScore bs js := by ring
      _ = dotScore (a :: t) (i :: it) + dotScore bs js := rfl

theorem dotScore_replicate (l : List String) (p : String → Bool) (x : ℚ) :
    dotScore (l.map p) (List.replicate l.length x) = ((l.filter p).length : ℚ) * x := by
  induction l with
  | nil => simp [dotScore]
  | cons a t ih =>
    have step : dotScore ((a :: t).map p) (List.replicate (a :: t).length x)
        = (if p a then x else 0) + dotScore (t.map p) (List.replicate t.length x) := rfl
    rw [step, ih, List.filter_cons]
    cases hpa : p a
    · simp
    · simp only [if_pos rfl, ite_true, List.length_cons]
      push_cast
      ring

theorem dotScore_mono : ∀ (incs : List ℚ) (bs1 bs2 : List Bool),
    (∀ i ∈ incs, (0:ℚ) ≤ i) →
    (∀ k, bs1.getD k false = true → bs2.getD k false = true) →
    dotScore bs1 incs ≤ dotScore bs2 incs := by
  intro incs
  induction incs with
  | nil => intro bs1 bs2 _ _; rw [dotScore_nil_right, dotScore_nil_right]
  | cons i it ih =>
    intro bs1 bs2 hnn hsub
    have hnn2 : ∀ x ∈ it, (0:ℚ) ≤ x := fun x hx => hnn x (List.mem_cons_of_mem i hx)
    have hi : (0:ℚ) ≤ i := hnn i (List.mem_cons_self i it)
    cases bs1 with
    | nil =>
      rw [dotScore_nil_left]
      exact dotScore_nonneg bs2 (i :: it) hnn
    | cons b1 t1 =>
      have hts : ∀ k, t1.getD k false = true → bs2.tail.getD k false = true := by
        intro k hk
        have h := hsub (k+1) (by simpa using hk)
        cases bs2 with
        | nil => simp at h
        | cons b2 t2 => simpa using h
      cases bs2 with
      | nil =>
        have hb1 : b1 = false := by
          cases hb : b1
          · rfl
          · have h := hsub 0 (by simp [hb])
            simp at h
        have h2 := ih t1 [] hnn2 (by simpa using hts)
        rw [dotScore_nil_left] at h2
        calc dotScore (b1 :: t1) (i :: it) = (if b1 then i else 0) + dotScore t1 it := rfl
        _ = dotScore t1 it := by rw [hb1]; simp
        _ ≤ 0 := h2
        _ = dotScore [] (i :: it) := (dotScore_nil_left _).symm
      | cons b2 t2 =>
        have hh : (if b1 then i else 0) ≤ (if b2 then i else 0) := by
          cases hb : b1
          · have h3 : (0:ℚ) ≤ if b2 then i else 0 := by
              split
              · exact hi
              · exact le_refl 0
            simpa using h3
          · have hb2 : b2 = true := by
              have h := hsub 0 (by simp [hb])
              simpa using h
            rw [hb2]
        have ht := ih t1 t2 hnn2 (by simpa using hts)
        calc dotScore (b1 :: t1) (i :: it) = (if b1 then i else 0) + dotScore t1 it := rfl
        _ ≤ (if b2 then i else 0) + dotScore t2 it := add_le_add hh ht
        _ = dotScore (b2 :: t2) (i :: it) := rfl

theorem scamIncrements_nonneg : ∀ i ∈ scamIncrements, (0:ℚ) ≤ i := by
  intro i hi
  rcases List.mem_append.1 hi with h | h
  · rw [List.eq_of_mem_replicate h]
    norm_num
  · fin_cases h <;> norm_num

/-- The raw accumulated scam score: the sum of the increments of all fired
checks, before the 1.0 cap and the 2-digit rounding. -/
def scamRaw (t d c : String) : ℚ := dotScore (scamFiredVec t d c) scamIncrements

theorem scamRaw_eq (t d c : String) :
    scamRaw t d c =
      ((scamKeywords.filter (fun kw => substr kw (strLower t ++ " " ++ strLower d))).length : ℚ) * (1/10)
      + (if scamH1 (strLower t) (strLower d) then 1/5 else 0)
      + (if scamH2 (strLower t ++ " " ++ strLower d) (strLower d) then 1/10 else 0)
      + (if scamH3 (strLower c) then 1/20 else 0) := by
  unfold scamRaw scamFiredVec scamIncrements
  dsimp only
  rw [dotScore_append _ _ _ _ (by simp), dotScore_replicate]
  simp only [dotScore]
  ring

/-- Twenty times the raw scam score, as a natural number (every increment is
a multiple of 1/20). -/
def scamTwentieths (t d c : String) : ℕ :=
  2 * (scamKeywords.filter (fun kw => substr kw (strLower t ++ " " ++ strLower d))).length
  + (if scamH1 (strLower t) (strLower d) then 4 else 0)
  + (if scamH2 (strLower t ++ " " ++ strLower d) (strLower d) then 2 else 0)
  + (if scamH3 (strLower c) then 1 else 0)

theorem scamRaw_div20 (t d c : String) : scamRaw t d c = (scamTwentieths t d c : ℚ) / 20 := by
  rw [scamRaw_eq]
  unfold scamTwentieths
  split_ifs <;> push_cast <;> ring

theorem min_div20 (k : ℕ) : min ((k : ℚ)/20) 1 = ((min k 20 : ℕ) : ℚ) / 20 := by
  rcases le_total k 20 with h | h
  · have h1 : ((k : ℚ)/20) ≤ 1 := by
      rw [div_le_one (by norm_num : (0:ℚ) < 20)]
      exact_mod_cast h
    rw [min_eq_left h1, Nat.min_eq_left h]
  · have h1 : (1:ℚ) ≤ (k : ℚ)/20 := by
      rw [le_div_iff₀ (by norm_num : (0:ℚ) < 20)]
      have : (20:ℚ) ≤ (k:ℚ) := by exact_mod_cast h
      linarith
    rw [min_eq_right h1, Nat.min_eq_right h]
    norm_num

theorem pyRound_two_div20 (k : ℕ) : pyRound 2 ((k : ℚ)/20) = (k : ℚ)/20 := by
  have h : ((k : ℚ))/20 = ((5 * (k : ℤ) : ℤ) : ℚ) / 10 ^ 2 := by
    push_cast
    ring
  rw [h, pyRound_eq_self]

theorem detectScam_ok_fields {t d c : String} {r : ScamResult}
    (h : detectScam t d c = DetectResponse.ok r) :
    r.score = min (scamRaw t d c) 1 ∧ (r.isSuspicious = true ↔ 0 < r.score) := by
  unfold detectScam at h
  dsimp only at h
  split at h
  · cases h
  · injection h with h
    subst h
    have hscore :
        min ((((scamKeywords.filter
            (fun kw => substr kw (strLower t ++ " " ++ strLower d))).length : ℚ) * (1/10)
          + (if scamH1 (strLower t) (strLower d) then 1/5 else 0)
          + (if scamH2 (strLower t ++ " " ++ strLower d) (strLower d) then 1/10 else 0)
          + (if scamH3 (strLower c) then 1/20 else 0)) : ℚ) 1 = min (scamRaw t d c) 1 := by
      rw [scamRaw_eq]
    constructor
    · show pyRound 2 _ = _
      rw [hscore, scamRaw_div20, min_div20, pyRound_two_div20, ← min_div20, ← scamRaw_div20]
    · show (_ || _ || _ || _) = true ↔ 0 < pyRound 2 _
      rw [hscore, scamRaw_div20, min_div20, pyRound_two_div20]
      have hpos : (0 : ℚ) < ((min (scamTwentieths t d c) 20 : ℕ) : ℚ) / 20 ↔
          0 < scamTwentieths t d c := by
        rw [div_pos_iff]
        constructor
        · rintro (⟨h1, _⟩ | ⟨_, h2⟩)
          · have : 0 < (min (scamTwentieths t d c) 20 : ℕ) := by exact_mod_cast h1
            omega
          · norm_num at h2
        · intro hk
          left
          constructor
          · have : 0 < (min (scamTwentieths t d c) 20 : ℕ) := by omega
            exact_mod_cast this
          · norm_num
      rw [hpos]
      unfold scamTwentieths
      constructor
      · intro hs
        rw [Bool.or_eq_true, Bool.or_eq_true, Bool.or_eq_true] at hs
        rcases hs with ((hk | h1) | h2) | h3
        · have hne : ¬ (scamKeywords.filter
              (fun kw => substr kw (strLower t ++ " " ++ strLower d))) = [] := by
            intro hnil
            simp [hnil] at hk
          have hlen : 0 < (scamKeywords.filter
              (fun kw => substr kw (strLower t ++ " " ++ strLower d))).length :=
            List.length_pos.2 hne
          omega
        · rw [if_pos h1]
          omega
        · rw [if_pos h2]
          omega
        · rw [if_pos h3]
          omega
      · intro hk
        by_contra hs
        rw [Bool.not_eq_true, Bool.or_eq_false_iff, Bool.or_eq_false_iff,
          Bool.or_eq_false_iff] at hs
        obtain ⟨⟨⟨he, h1⟩, h2⟩, h3⟩ := hs
        have hL : (scamKeywords.filter
            (fun kw => substr kw (strLower t ++ " " ++ strLower d))).length = 0 := by
          simp only [Bool.not_eq_false', List.isEmpty_iff] at he
          simp [he]
        rw [hL, if_neg (by simp [h1]), if_neg (by simp [h2]), if_neg (by simp [h3])] at hk
        omega

theorem detectScam_vague_company_irrel (t d c1 c2 : String)
    (h1 : scamH3 (strLower c1) = false) (h2 : scamH3 (strLower c2) = false) :
    detectScam t d c1 = detectScam t d c2 := by
  unfold detectScam
  dsimp only
  rw [h1, h2]
  simp

theorem prefMatches_false {u : UserProfile} (hpref : u.jobPreferences = ⟨[], [], [], []⟩)
    (j : Job) :
    prefLocMatch u j = false ∧ prefTypeMatch u j = false
    ∧ prefSenMatch u j = false ∧ prefIndMatch u j = false := by
  unfold prefLocMatch prefTypeMatch prefSenMatch prefIndMatch
  rw [hpref]
  simp

theorem clamp01_idem (x : ℚ) : min (max 0 (min (max 0 x) 1)) 1 = min (max 0 x) 1 := by
  have h := clamp_mem x 1 zero_le_one
  rw [max_eq_right h.1, min_eq_left h.2]

theorem required_pos_of_common {u : UserProfile} {job : Job}
    (hps : job.preferredSkills = []) (hc : (commonSkills u job).isEmpty = false) :
    0 < job.requiredSkills.length := by
  have hne : commonSkills u job ≠ [] := by
    intro hnil
    rw [hnil] at hc
    simp at hc
  obtain ⟨x, hx⟩ := List.exists_mem_of_ne_nil _ hne
  have hx2 : x ∈ lowerSet (job.requiredSkills ++ job.preferredSkills) :=
    ((mem_inter_iff _ _ x).1 hx).2
  rw [hps, List.append_nil, mem_lowerSet_iff] at hx2
  rw [List.length_pos]
  intro hnil
  rw [hnil] at hx2
  simp at hx2

theorem commonSkills_dup (u : UserProfile) (job : Job) :
    commonSkills u { job with requiredSkills := job.requiredSkills ++ job.requiredSkills }
      = commonSkills u job := by
  unfold commonSkills
  dsimp only
  rw [lowerSet_dup]

theorem scoreJob_fst_noprefs (u : UserProfile) (job : Job)
    (hpref : u.jobPreferences = ⟨[], [], [], []⟩) (hps : job.preferredSkills = [])
    (hc : (commonSkills u job).isEmpty = false) :
    (scoreJob u job).1 =
      ((inter (userSkillsLower u) (lowerSet job.requiredSkills)).length : ℚ)
        / (job.requiredSkills.length : ℚ) * (7/10) := by
  obtain ⟨hb1, hb2, hb3, hb4⟩ := prefMatches_false hpref job
  have hn : 0 < job.requiredSkills.length := required_pos_of_common hps hc
  have hm : (inter (userSkillsLower u) (lowerSet job.requiredSkills)).length
      ≤ job.requiredSkills.length :=
    inter_lowerSet_length_le (lowerSet_nodup _) _
  set m : ℕ := (inter (userSkillsLower u) (lowerSet job.requiredSkills)).length with hmdef
  have h0 : (0:ℚ) ≤ (m : ℚ) / (job.requiredSkills.length : ℚ) * (7/10) := by positivity
  have h1 : (m : ℚ) / (job.requiredSkills.length : ℚ) * (7/10) ≤ 1 := by
    have hd : (m : ℚ) / (job.requiredSkills.length : ℚ) ≤ 1 := by
      rw [div_le_one (by exact_mod_cast hn)]
      exact_mod_cast hm
    nlinarith
  simp only [scoreJob, hc, hb1, hb2, hb3, hb4, hps]
  simp only [Bool.false_eq_true, if_false, add_zero, List.length_nil, lt_irrefl,
    if_pos hn, clamp01_idem]
  rw [clamp_eq_self h0 h1]

/- ------------------------------------------------------------------ -/
/- Example fixtures                                                    -/
/- ------------------------------------------------------------------ -/

/-- Example datastore: one active job, no users. -/
def dbA : DB := ⟨[], [⟨"j1", "T", "D", "L", "F", "S", "I", ["python"], [], "active", "Acme", none⟩]⟩

/-- Example user: one skill, a seniority preference, nothing else. -/
def uB : UserProfile := ⟨"u4", ["Python"], [], [], ⟨[], [], ["Senior"], []⟩⟩

/-- Example active job matching uB's skill and preferred seniority. -/
def jB : Job :=
  ⟨"j4", "T4", "D4", "Loc", "Full-time", "Senior", "Tech", ["Python"], [], "active", "Acme", none⟩

/-- Example non-active job (still resolvable by id) used for screening. -/
def jC : Job :=
  ⟨"j5", "T5", "D5", "L5", "F5", "Mid-level", "Tech", ["Python"], ["AWS"], "pending_review",
   "Beta", none⟩

/-- Example datastore with one user and two jobs. -/
def dbB : DB := ⟨[uB], [jB, jC]⟩

/-- Example user for the duplicate-skills scenario. -/
def uC : UserProfile := ⟨"u", ["python"], [], [], ⟨[], [], [], []⟩⟩

/-- Example job with a single required skill and no preferred skills. -/
def jD : Job := ⟨"jx", "", "", "", "", "", "", ["python"], [], "active", "", none⟩

/- ------------------------------------------------------------------ -/
/- Claims                                                              -/
/- ------------------------------------------------------------------ -/

/-- C1, corrected.  If the user id does not resolve, or the resolved user
has no recorded skills, or the personalized recommendation set comes out
empty, then `/recommend-jobs` answers with the fallback list: up to 5
active jobs in natural datastore order (the definition of `generalJobs`),
each tagged with the fixed score 0.5 — but carrying NO reasons field at
all: the code never attaches the "General match" reason the claim
describes. -/
theorem c1_fallback_half_score_no_reason (db : DB) (uid : String)
    (huid : uid ≠ "")
    (hfb : ∀ u, getUserProfile db uid = some u →
      (userSkillsLower u).isEmpty = true ∨ personalizedRecs db u = []) :
    recommendJobs db uid = RecResponse.ok (generalJobs db)
    ∧ (generalJobs db).length ≤ 5
    ∧ ∀ x ∈ generalJobs db, x.score = 1/2 ∧ x.reasons = none := by
  refine ⟨?_, length_generalJobs_le db, fun x hx => mem_generalJobs hx⟩
  unfold recommendJobs
  rw [if_neg huid]
  cases hu : getUserProfile db uid with
  | none => rfl
  | some u =>
    rcases hfb u hu with hsk | hrec
    · simp [hsk]
    · by_cases hsk : (userSkillsLower u).isEmpty
      · simp [hsk]
      · simp only [hsk, Bool.false_eq_true, if_false]
        rw [hrec]
        rfl

/-- Witness for C1 at a concrete datastore (unknown user id, one active
job). -/
theorem c1_fallback_half_score_no_reason_witness :
    (("u1" : String) ≠ "" ∧ (∀ u, getUserProfile dbA "u1" = some u →
      (userSkillsLower u).isEmpty = true ∨ personalizedRecs dbA u = []))
    ∧ (recommendJobs dbA "u1" = RecResponse.ok (generalJobs dbA)
       ∧ (generalJobs dbA).length ≤ 5
       ∧ ∀ x ∈ generalJobs dbA, x.score = 1/2 ∧ x.reasons = none) := by
  have h1 : ("u1" : String) ≠ "" := by decide
  have h2 : ∀ u, getUserProfile dbA "u1" = some u →
      (userSkillsLower u).isEmpty = true ∨ personalizedRecs dbA u = [] := by
    intro u hu
    rw [show getUserProfile dbA "u1" = none from rfl] at hu
    cases hu
  exact ⟨⟨h1, h2⟩, c1_fallback_half_score_no_reason dbA "u1" h1 h2⟩

/-- Counterexample to C1 as stated: with an unresolvable user id the single
fallback card carries score 0.5 and no reasons field whatsoever, so no
"General match" reason is attached anywhere in the response. -/
theorem c1_counterexample_no_general_match :
    recommendJobs dbA "u1"
      = RecResponse.ok [⟨"j1", 1/2, none, "T", "Acme", "L", "F", "D", none⟩] := by
  with_unfolding_all decide

/-- C2, code bug.  The keyword table entry "MLM" is upper-case but is
matched against the lowercased combined text, so it can never fire: on a
posting whose text contains "MLM" (present case-insensitively, as the
second conjunct shows) and no other table phrase, the detector returns
score 0, no flags and isSuspicious = false, contradicting the claim and
the spec's case-insensitive keyword table. -/
theorem c2_mlm_keyword_never_fires :
    detectScam "Job" "Join our MLM team" "Acme" = DetectResponse.ok ⟨false, 0, []⟩
    ∧ substr "mlm" (strLower "Job" ++ " " ++ strLower "Join our MLM team") = true
    ∧ scamKeywords.contains "MLM" = true := by
  refine ⟨?_, ?_, ?_⟩ <;> with_unfolding_all decide

/-- C3, corrected.  Skill matching does use lower-cased set semantics: the
matched set is the intersection of the lower-cased collections, matching is
commutative, and duplicates inflate no matched count; the screener is even
pointwise invariant under duplicated job skill lists.  BUT the claim's last
part fails: the recommendation scorer divides by the raw (non-deduplicated)
length of the job's skill lists, so duplicating a job's required-skill list
halves its required-skill fraction instead of leaving it unchanged. -/
theorem c3_set_semantics_and_raw_denominator :
    (∀ (A B : List String) (x : String),
      ((x ∈ inter (lowerSet A) (lowerSet B)) ↔ x ∈ A.map strLower ∧ x ∈ B.map strLower)
      ∧ ((x ∈ inter (lowerSet A) (lowerSet B)) ↔ x ∈ inter (lowerSet B) (lowerSet A)))
    ∧ (∀ A B : List String,
        (inter (lowerSet (A ++ A)) (lowerSet (B ++ B))).length
          = (inter (lowerSet A) (lowerSet B)).length)
    ∧ (∀ (db : DB) (job : Job) (aid : String),
        screenOne db { job with requiredSkills := job.requiredSkills ++ job.requiredSkills,
                                preferredSkills := job.preferredSkills ++ job.preferredSkills } aid
          = screenOne db job aid)
    ∧ (∀ (u : UserProfile) (job : Job),
        u.jobPreferences = ⟨[], [], [], []⟩ → job.preferredSkills = [] →
        (scoreJob u { job with requiredSkills := job.requiredSkills ++ job.requiredSkills }).1
          = (scoreJob u job).1 / 2) := by
  refine ⟨?_, ?_, ?_, ?_⟩
  · intro A B x
    constructor
    · rw [mem_inter_iff, mem_lowerSet_iff, mem_lowerSet_iff]
    · simp only [mem_inter_iff, mem_lowerSet_iff]
      exact And.comm
  · intro A B
    rw [lowerSet_dup2 A, lowerSet_dup2 B]
  · intro db job aid
    unfold screenOne
    cases getUserProfile db aid with
    | none => rfl
    | some p =>
      dsimp only
      rw [lowerSet_dup2, lowerSet_dup2]
  · intro u job hpref hps
    by_cases hc : (commonSkills u job).isEmpty
    · have hz : ∀ j : Job, (commonSkills u j).isEmpty = true → (scoreJob u j).1 = 0 := by
        intro j hcj
        obtain ⟨hb1, hb2, hb3, hb4⟩ := prefMatches_false hpref j
        simp [scoreJob, hcj, hb1, hb2, hb3, hb4]
      have hc2 : (commonSkills u
          { job with requiredSkills := job.requiredSkills ++ job.requiredSkills }).isEmpty
            = true := by
        rw [commonSkills_dup]
        exact hc
      rw [hz _ hc2, hz job hc]
      norm_num
    · have hc1 : (commonSkills u job).isEmpty = false := by rwa [Bool.not_eq_true] at hc
      have hc2 : (commonSkills u
          { job with requiredSkills := job.requiredSkills ++ job.requiredSkills }).isEmpty
            = false := by
        rw [commonSkills_dup]
        exact hc1
      have hps2 : ({ job with requiredSkills := job.requiredSkills ++ job.requiredSkills }
          : Job).preferredSkills = [] := hps
      rw [scoreJob_fst_noprefs u _ hpref hps2 hc2, scoreJob_fst_noprefs u job hpref hps hc1]
      dsimp only
      rw [lowerSet_dup2, List.length_append]
      have key : ∀ a b : ℚ, a / (b + b) * (7/10) = a / b * (7/10) / 2 := by
        intro a b
        rw [show b + b = 2 * b from by ring, mul_comm (2:ℚ) b, ← div_div]
        ring
      push_cast
      exact key _ _

/-- Witness for C3: the duplicated-required-list relation applied at a
concrete user and job (scores 0.35 and 0.7). -/
theorem c3_set_semantics_and_raw_denominator_witness :
    (uC.jobPreferences = ⟨[], [], [], []⟩ ∧ jD.preferredSkills = [])
    ∧ (scoreJob uC { jD with requiredSkills := jD.requiredSkills ++ jD.requiredSkills }).1
        = (scoreJob uC jD).1 / 2 :=
  ⟨⟨rfl, rfl⟩, c3_set_semantics_and_raw_denominator.2.2.2 uC jD rfl rfl⟩

/-- Counterexample to C3 as stated: with user skills ["python"] the job
whose required list is ["python", "python"] gets required fraction 1/2 and
skill score 0.35, while required list ["python"] gives fraction 1 and
skill score 0.7 — the recommendation fraction is NOT invariant under
duplicate entries in the job's skill list. -/
theorem c3_counterexample_duplicates_change_fraction :
    (scoreJob uC { jD with requiredSkills := ["python", "python"] }).1 = 7/20
    ∧ (scoreJob uC jD).1 = 7/10 := by
  refine ⟨?_, ?_⟩ <;> with_unfolding_all decide

/-- C4, corrected.  The reasons list of every personalized entry contains
the matched-skills entry exactly when some skills matched, and a note ONLY
for the location bonus: the job-type (+0.05), seniority (+0.10) and
industry (+0.10) bonuses are applied to the score with no note appended
(in the source only the location branch has a `reasons.append`); cards of
the fallback branch carry no reasons at all. -/
theorem c4_reasons_matched_skills_and_location_only (db : DB) (uid : String)
    (u : UserProfile) (l : List JobCard)
    (hu : getUserProfile db uid = some u) (hl : recommendJobs db uid = RecResponse.ok l) :
    (∀ job : Job, (scoreJob u job).2 =
      (if (commonSkills u job).isEmpty then []
       else ["Matched skills: " ++ ", ".intercalate (commonSkills u job)])
      ++ (if prefLocMatch u job then ["Location preference matched."] else []))
    ∧ ∀ x ∈ l, x.reasons = none ∨ ∃ job : Job, x.reasons = some (scoreJob u job).2 := by
  constructor
  · intro job
    by_cases hc : (commonSkills u job).isEmpty
    · simp [scoreJob, hc]
    · simp [scoreJob, hc]
  · intro x hx
    rcases recommendJobs_ok hl with h | ⟨u2, hu2, h⟩
    · left
      exact (mem_generalJobs (h ▸ hx)).2
    · have hu3 : u2 = u := by
        rw [hu] at hu2
        exact (Option.some.inj hu2).symm
      subst hu3
      right
      have hx2 : x ∈ personalizedRecs db u2 := ((sortByScoreDesc_perm _).mem_iff).1 (h ▸ hx)
      obtain ⟨j, _, _, d, _, hxe⟩ := mem_personalizedRecs hx2
      exact ⟨j, by rw [hxe]; rfl⟩

/-- Witness for C4 at a concrete datastore: one matching job with a
seniority-preference bonus. -/
theorem c4_reasons_matched_skills_and_location_only_witness :
    (getUserProfile dbB "u4" = some uB
     ∧ recommendJobs dbB "u4" = RecResponse.ok
        [⟨"j4", 4/5, some ["Matched skills: python"], "T4", "Acme", "Loc", "Full-time", "D4", none⟩])
    ∧ ((∀ job : Job, (scoreJob uB job).2 =
        (if (commonSkills uB job).isEmpty then []
         else ["Matched skills: " ++ ", ".intercalate (commonSkills uB job)])
        ++ (if prefLocMatch uB job then ["Location preference matched."] else []))
      ∧ ∀ x ∈ [(⟨"j4", 4/5, some ["Matched skills: python"], "T4", "Acme", "Loc", "Full-time",
          "D4", none⟩ : JobCard)],
          x.reasons = none ∨ ∃ job : Job, x.reasons = some (scoreJob uB job).2) := by
  have h1 : getUserProfile dbB "u4" = some uB := by with_unfolding_all decide
  have h2 : recommendJobs dbB "u4" = RecResponse.ok
      [⟨"j4", 4/5, some ["Matched skills: python"], "T4", "Acme", "Loc", "Full-time", "D4",
        none⟩] := by
    with_unfolding_all decide
  exact ⟨⟨h1, h2⟩, c4_reasons_matched_skills_and_location_only dbB "u4" uB _ h1 h2⟩

/-- Counterexample to C4 as stated: at dbB the only personalized entry has
score 0.8 = 0.7 (skill term) + 0.1 (seniority-preference bonus, which did
apply, as the second conjunct shows), yet its reasons list is exactly the
matched-skills entry — no note for the applied seniority bonus exists. -/
theorem c4_counterexample_silent_seniority_bonus :
    recommendJobs dbB "u4" = RecResponse.ok
      [⟨"j4", 4/5, some ["Matched skills: python"], "T4", "Acme", "Loc", "Full-time", "D4", none⟩]
    ∧ prefSenMatch uB jB = true
    ∧ (scoreJob uB jB).1 = 4/5
    ∧ (scoreJob uB jB).2 = ["Matched skills: python"] := by
  refine ⟨?_, ?_, ?_, ?_⟩ <;> with_unfolding_all decide

/-- C5, confirmed.  The returned scam score equals the accumulated sum of
the increments of the fired checks (`scamRaw`, the dot product of the fired
vector with the increment table) capped at 1.0 (the 2-digit rounding is the
identity on these multiples of 0.05); isSuspicious is true exactly when the
returned score is positive; and the score is monotone: any input whose
fired-check set contains that of another scores at least as much. -/
theorem c5_scam_score_capped_sum_monotone_iff
    (t d c t2 d2 c2 : String) (r r2 : ScamResult)
    (h : detectScam t d c = DetectResponse.ok r)
    (h2 : detectScam t2 d2 c2 = DetectResponse.ok r2)
    (hsub : ∀ k, (scamFiredVec t d c).getD k false = true →
      (scamFiredVec t2 d2 c2).getD k false = true) :
    r.score = min (scamRaw t d c) 1
    ∧ (r.isSuspicious = true ↔ 0 < r.score)
    ∧ r.score ≤ r2.score := by
  obtain ⟨hs1, hi1⟩ := detectScam_ok_fields h
  obtain ⟨hs2, _⟩ := detectScam_ok_fields h2
  refine ⟨hs1, hi1, ?_⟩
  rw [hs1, hs2]
  exact min_le_min
    (dotScore_mono scamIncrements _ _ scamIncrements_nonneg hsub) (le_refl 1)

/-- Witness for C5 at a concrete input (no checks fire; the fired-set
inclusion is instantiated with the same input twice). -/
theorem c5_scam_score_capped_sum_monotone_iff_witness :
    (detectScam "x" "" "" = DetectResponse.ok ⟨false, 0, []⟩)
    ∧ ((⟨false, 0, []⟩ : ScamResult).score = min (scamRaw "x" "" "") 1
       ∧ ((⟨false, 0, []⟩ : ScamResult).isSuspicious = true
          ↔ 0 < (⟨false, 0, []⟩ : ScamResult).score)
       ∧ (⟨false, 0, []⟩ : ScamResult).score ≤ (⟨false, 0, []⟩ : ScamResult).score) := by
  have h : detectScam "x" "" "" = DetectResponse.ok ⟨false, 0, []⟩ := by
    with_unfolding_all decide
  exact ⟨h, c5_scam_score_capped_sum_monotone_iff "x" "" "" "x" "" "" _ _ h h (fun k hk => hk)⟩

/-- C6, confirmed.  Every score is inside its declared range when returned:
all recommendation cards carry a score in [0, 1] and all screening entries
a score in [0, 100]. -/
theorem c6_scores_within_declared_ranges (db : DB) (uid jid : String) (ids : List String)
    (l : List JobCard) (rs : List ScreenEntry)
    (hl : recommendJobs db uid = RecResponse.ok l)
    (hrs : screenCandidates db jid ids = ScreenResponse.ok rs) :
    (∀ x ∈ l, 0 ≤ x.score ∧ x.score ≤ 1) ∧ (∀ e ∈ rs, 0 ≤ e.score ∧ e.score ≤ 100) := by
  constructor
  · intro x hx
    rcases recommendJobs_ok hl with h | ⟨u, _, h⟩
    · have hm := mem_generalJobs (h ▸ hx)
      rw [hm.1]
      norm_num
    · have hx2 : x ∈ personalizedRecs db u := ((sortByScoreDesc_perm _).mem_iff).1 (h ▸ hx)
      obtain ⟨j, _, _, d, _, hxe⟩ := mem_personalizedRecs hx2
      have hsc : x.score = pyRound 4 (scoreJob u j).1 := by rw [hxe]; rfl
      obtain ⟨y, hy⟩ := scoreJob_fst_shape u j
      have hb := clamp_mem y 1 zero_le_one
      rw [hsc, hy]
      constructor
      · exact pyRound_nonneg 4 _ hb.1
      · have h1 := pyRound_le_int 4 1 _ (by push_cast; exact hb.2)
        push_cast at h1
        exact h1
  · intro e he
    obtain ⟨job, _, hmap⟩ := screenCandidates_ok hrs
    rw [hmap] at he
    obtain ⟨aid, _, hae⟩ := List.mem_map.1 he
    rcases screenOne_score_shape db job aid with h0 | ⟨y, hy⟩
    · rw [← hae, h0]
      norm_num
    · rw [← hae, hy]
      have hb := clamp_mem y 100 (by norm_num)
      constructor
      · exact pyRound_nonneg 2 _ hb.1
      · have h1 := pyRound_le_int 2 100 _ (by push_cast; exact hb.2)
        push_cast at h1
        exact h1

/-- Witness for C6 at a concrete datastore in which both endpoints return
results. -/
theorem c6_scores_within_declared_ranges_witness :
    (recommendJobs dbB "u4" = RecResponse.ok
        [⟨"j4", 4/5, some ["Matched skills: python"], "T4", "Acme", "Loc", "Full-time", "D4",
          none⟩]
     ∧ screenCandidates dbB "j5" ["u4"]
        = ScreenResponse.ok [⟨"u4", 70, ["All required skills matched."]⟩])
    ∧ ((∀ x ∈ [(⟨"j4", 4/5, some ["Matched skills: python"], "T4", "Acme", "Loc", "Full-time",
          "D4", none⟩ : JobCard)], 0 ≤ x.score ∧ x.score ≤ 1)
       ∧ ∀ e ∈ [(⟨"u4", 70, ["All required skills matched."]⟩ : ScreenEntry)],
          0 ≤ e.score ∧ e.score ≤ 100) := by
  have h1 : recommendJobs dbB "u4" = RecResponse.ok
      [⟨"j4", 4/5, some ["Matched skills: python"], "T4", "Acme", "Loc", "Full-time", "D4",
        none⟩] := by
    with_unfolding_all decide
  have h2 : screenCandidates dbB "j5" ["u4"]
      = ScreenResponse.ok [⟨"u4", 70, ["All required skills matched."]⟩] := by
    with_unfolding_all decide
  exact ⟨⟨h1, h2⟩, c6_scores_within_declared_ranges dbB "u4" "j5" ["u4"] _ _ h1 h2⟩

/-- C7, confirmed.  An applicant who matches the whole required-skill set,
matches none of the preferred skills, and takes neither seniority penalty
branch is screened at exactly 70 (60 from the required term, 0 from the
preferred term, plus the flat +10). -/
theorem c7_full_required_zero_preferred_no_penalty_70 (db : DB) (job : Job) (aid : String)
    (p : UserProfile)
    (hp : getUserProfile db aid = some p)
    (hreq : ∀ s ∈ lowerSet job.requiredSkills, s ∈ lowerSet p.skills)
    (hpref : inter (lowerSet job.preferredSkills) (lowerSet p.skills) = [])
    (hsen1 : (substr "senior" (strLower job.seniorityLevel)
        && !((p.experience.map (fun e => strLower e.title)).any (fun t => substr "senior" t)))
        = false)
    (hsen2 : (substr "entry-level" (strLower job.seniorityLevel)
        && (p.experience.map (fun e => strLower e.title)).any (fun t => substr "senior" t))
        = false) :
    (screenOne db job aid).score = 70 := by
  have hm : inter (lowerSet job.requiredSkills) (lowerSet p.skills)
      = lowerSet job.requiredSkills := by
    unfold inter
    apply List.filter_eq_self.2
    intro a ha
    simpa using hreq a ha
  unfold screenOne
  rw [hp]
  dsimp only
  rw [hm, hpref, hsen1, hsen2]
  simp only [Bool.false_eq_true, if_false]
  have hs1 : (if (lowerSet job.requiredSkills).isEmpty = true then (60:ℚ)
      else ((lowerSet job.requiredSkills).length : ℚ)
        / ((lowerSet job.requiredSkills).length : ℚ) * 60) = 60 := by
    split
    · rfl
    · next hne =>
      have hlen : (lowerSet job.requiredSkills).length ≠ 0 := by
        intro h0
        rw [List.length_eq_zero] at h0
        rw [h0] at hne
        simp at hne
      rw [div_self (by exact_mod_cast hlen), one_mul]
  have hs2 : (if (lowerSet job.preferredSkills).isEmpty = true then (0:ℚ)
      else (([] : List String).length : ℚ) / ((lowerSet job.preferredSkills).length : ℚ) * 30)
      = 0 := by
    split
    · rfl
    · simp
  rw [hs1, hs2]
  have h70 := pyRound_intCast 2 70
  push_cast at h70
  rw [show min (max (0:ℚ) (60 + 0 + 10)) 100 = 70 from by norm_num]
  exact h70

/-- Witness for C7 at a concrete datastore: applicant uB against job jC
(required fully matched, preferred unmatched, no seniority branch). -/
theorem c7_full_required_zero_preferred_no_penalty_70_witness :
    (getUserProfile dbB "u4" = some uB
     ∧ (∀ s ∈ lowerSet jC.requiredSkills, s ∈ lowerSet uB.skills)
     ∧ inter (lowerSet jC.preferredSkills) (lowerSet uB.skills) = []
     ∧ (substr "senior" (strLower jC.seniorityLevel)
        && !((uB.experience.map (fun e => strLower e.title)).any (fun t => substr "senior" t)))
        = false
     ∧ (substr "entry-level" (strLower jC.seniorityLevel)
        && (uB.experience.map (fun e => strLower e.title)).any (fun t => substr "senior" t))
        = false)
    ∧ (screenOne dbB jC "u4").score = 70 := by
  refine ⟨⟨?_, ?_, ?_, ?_, ?_⟩, ?_⟩
  · with_unfolding_all decide
  · with_unfolding_all decide
  · with_unfolding_all decide
  · with_unfolding_all decide
  · with_unfolding_all decide
  · exact c7_full_required_zero_preferred_no_penalty_70 dbB jC "u4" uB
      (by with_unfolding_all decide) (by with_unfolding_all decide)
      (by with_unfolding_all decide) (by with_unfolding_all decide)
      (by with_unfolding_all decide)

/-- C8, confirmed.  On the success path screening maps `screenOne` over
the applicant ids: the result list has the same length and order as the
input ids, and an unresolvable applicant yields score 0 with the fixed
not-found reason without disturbing the entries of the other applicants
(each entry depends only on its own id). -/
theorem c8_screening_preserves_order_and_isolates_failures (db : DB) (jid : String)
    (ids : List String) (job : Job)
    (hjid : jid ≠ "") (hids : ids ≠ []) (hj : getJobDetails db jid = some job) :
    screenCandidates db jid ids = ScreenResponse.ok (ids.map (screenOne db job))
    ∧ (ids.map (screenOne db job)).length = ids.length
    ∧ ∀ aid, getUserProfile db aid = none →
        screenOne db job aid = ⟨aid, 0, ["Applicant profile not found in DB or invalid ID."]⟩ := by
  refine ⟨?_, List.length_map _ _, ?_⟩
  · unfold screenCandidates
    rw [if_neg ?_, hj]
    rintro (h | h)
    · exact hjid h
    · rw [List.isEmpty_iff] at h
      exact hids h
  · intro aid ha
    unfold screenOne
    rw [ha]

/-- Witness for C8 at a concrete datastore: two applicants, the second
unresolvable. -/
theorem c8_screening_preserves_order_and_isolates_failures_witness :
    (("j5" : String) ≠ "" ∧ (["u4", "nobody"] : List String) ≠ []
     ∧ getJobDetails dbB "j5" = some jC)
    ∧ (screenCandidates dbB "j5" ["u4", "nobody"]
        = ScreenResponse.ok (["u4", "nobody"].map (screenOne dbB jC))
       ∧ ((["u4", "nobody"] : List String).map (screenOne dbB jC)).length
          = (["u4", "nobody"] : List String).length
       ∧ ∀ aid, getUserProfile dbB aid = none →
          screenOne dbB jC aid
            = ⟨aid, 0, ["Applicant profile not found in DB or invalid ID."]⟩) := by
  have h1 : ("j5" : String) ≠ "" := by decide
  have h2 : (["u4", "nobody"] : List String) ≠ [] := by decide
  have h3 : getJobDetails dbB "j5" = some jC := by with_unfolding_all decide
  exact ⟨⟨h1, h2, h3⟩,
    c8_screening_preserves_order_and_isolates_failures dbB "j5" ["u4", "nobody"] jC h1 h2 h3⟩

/-- C9, corrected.  For title "Entry Level Assistant" and description
"no experience required, salary 150k", heuristic 1 (+0.20) and the keyword
"no experience required" (+0.10) fire, giving score 0.30 and
isSuspicious = true — but only for company names whose lowered form is NOT
in the vague-name table: the claim's "any company name" fails because a
vague name adds a further +0.05 (see the counterexample). -/
theorem c9_entry_level_high_salary_scenario (companyName : String)
    (hc : vagueCompanyNames.contains (strLower companyName) = false) :
    detectScam "Entry Level Assistant" "no experience required, salary 150k" companyName
      = DetectResponse.ok ⟨true, 3/10,
          ["Contains suspicious keyword: \x27no experience required\x27",
           "Suspicious: High pay for little or no experience mentioned."]⟩ := by
  have h1 : scamH3 (strLower companyName) = false := by
    unfold scamH3
    rw [hc, Bool.and_false]
  have h2 : scamH3 (strLower "") = false := by with_unfolding_all decide
  rw [detectScam_vague_company_irrel _ _ _ "" h1 h2]
  with_unfolding_all decide

/-- Witness for C9 at a concrete non-vague company name. -/
theorem c9_entry_level_high_salary_scenario_witness :
    vagueCompanyNames.contains (strLower "Acme Corp") = false
    ∧ detectScam "Entry Level Assistant" "no experience required, salary 150k" "Acme Corp"
        = DetectResponse.ok ⟨true, 3/10,
            ["Contains suspicious keyword: \x27no experience required\x27",
             "Suspicious: High pay for little or no experience mentioned."]⟩ := by
  have hc : vagueCompanyNames.contains (strLower "Acme Corp") = false := by
    with_unfolding_all decide
  exact ⟨hc, c9_entry_level_high_salary_scenario "Acme Corp" hc⟩

/-- Counterexample to C9 as stated: with the vague company name
"Confidential" the same title and description return score 0.35, not 0.30,
because heuristic 3 adds +0.05. -/
theorem c9_counterexample_vague_company_changes_score :
    detectScam "Entry Level Assistant" "no experience required, salary 150k" "Confidential"
      = DetectResponse.ok ⟨true, 7/20,
          ["Contains suspicious keyword: \x27no experience required\x27",
           "Suspicious: High pay for little or no experience mentioned.",
           "Vague company name: \x27confidential\x27."]⟩ := by
  with_unfolding_all decide
